import Mathlib

/-!
Verification of the LinkedIn connection checker core: the profile-status
classifier (`determineConnectionStatus`), the URL normalizer
(`normalizeLinkedInUrl`), the sheet-update retrier (`updateProfileStatus`),
the profile loader (`getProfiles`), and the per-profile main loop, shallowly
embedded from the TypeScript sources.

JavaScript strings are modelled as `List Char`; the JS string operations used
by the code (`includes`, `split` at the first occurrence of a character,
`replace` of a trailing slash, `endsWith`, one-shot `replace` of a string
pattern, `trim`) are given executable models below.  Numbers that matter
(confidences) are rationals; machine floats never overflow or round in the
values used (0.5, 0.9, 0.95), so `Rat` is exact here.
-/

namespace LinkedinChecker

/-- The `ProfileStatus` enum of `types.ts`. -/
inductive ProfileStatus where
  | PENDING
  | ACCEPTED
  | NOT_CONNECTED
  | UNKNOWN
deriving DecidableEq, Repr

/-- String value of each `ProfileStatus` enum member, as declared in `types.ts`. -/
def statusStr : ProfileStatus → String
  | .PENDING => "pending"
  | .ACCEPTED => "accepted"
  | .NOT_CONNECTED => "not_connected"
  | .UNKNOWN => "unknown"

/-- The record produced by the `page.evaluate` block of
`determineConnectionStatus` (index.ts lines 520-568): the DOM signal set the
decision logic consumes. -/
structure PageSignals where
  hasConnectButton : Bool
  hasPendingButton : Bool
  hasMessageButton : Bool
  connectionDegree : String
  isPendingInHtml : Bool
  isConnectedInHtml : Bool
deriving DecidableEq, Repr

/-- The `{status, confidence, reasoning}` triple returned by
`determineConnectionStatus`. -/
structure ClassificationResult where
  status : ProfileStatus
  confidence : ℚ
  reasoning : String
deriving DecidableEq, Repr

/-- Model of JS `hay.startsWith(pat)` on char lists. -/
def startsWithSeq (hay pat : List Char) : Bool :=
  match hay, pat with
  | _, [] => true
  | [], _ :: _ => false
  | h :: hs, p :: ps => h = p && startsWithSeq hs ps

/-- Model of JS `hay.includes(pat)` (substring containment) on char lists. -/
def containsSeq (hay pat : List Char) : Bool :=
  startsWithSeq hay pat ||
    match hay with
    | [] => false
    | _ :: hs => containsSeq hs pat

/-- JS `s.includes(pat)` for the `String`-typed fields of `PageSignals`. -/
def strContains (s pat : String) : Bool :=
  containsSeq s.data pat.data

/-- Degree badge marker "1st". -/
def deg1st : String := "1st"

/-- Degree badge marker "2nd". -/
def deg2nd : String := "2nd"

/-- Degree badge marker "3rd". -/
def deg3rd : String := "3rd"

/-- The decision logic of `determineConnectionStatus` (index.ts lines 570-596):
`status`/`reasoning`/`confidence` start at the UNKNOWN defaults and the
if/else-if chain overwrites them, which is exactly this if-then-else chain. -/
def determineConnectionStatus (e : PageSignals) : ClassificationResult :=
  if e.isPendingInHtml || e.hasPendingButton then
    { status := .PENDING
      confidence := 95/100
      reasoning := "Found \x27Pending\x27 button or pending status in profile data" }
  else if e.isConnectedInHtml || (e.hasMessageButton && !e.hasConnectButton)
      || strContains e.connectionDegree deg1st then
    { status := .ACCEPTED
      confidence := 95/100
      reasoning := "Profile is a 1st degree connection with message button" }
  else if e.hasConnectButton || strContains e.connectionDegree deg2nd
      || strContains e.connectionDegree deg3rd then
    { status := .NOT_CONNECTED
      confidence := 9/10
      reasoning := "Found \x27Connect\x27 button or 2nd/3rd degree connection" }
  else
    { status := .UNKNOWN
      confidence := 1/2
      reasoning := "Could not determine connection status with confidence" }

/-- The four-rule precedence table exactly as the specification words it
(first match wins); used to compare the code's classifier against the spec. -/
def specDecisionTable (e : PageSignals) : ProfileStatus × ℚ :=
  if e.isPendingInHtml || e.hasPendingButton then
    (.PENDING, 95/100)
  else if e.isConnectedInHtml || (e.hasMessageButton && !e.hasConnectButton)
      || strContains e.connectionDegree deg1st then
    (.ACCEPTED, 95/100)
  else if e.hasConnectButton || strContains e.connectionDegree deg2nd
      || strContains e.connectionDegree deg3rd then
    (.NOT_CONNECTED, 9/10)
  else
    (.UNKNOWN, 1/2)

/-- The all-false / empty signal record. -/
def emptySignals : PageSignals :=
  { hasConnectButton := false
    hasPendingButton := false
    hasMessageButton := false
    connectionDegree := ""
    isPendingInHtml := false
    isConnectedInHtml := false }

/-- One sheet-write call as issued by `updateProfileStatus`
(google-sheets.ts lines 177-184): range `B{row}:C{row}` with values
`[[status, confidence.toString()]]`; the rational carries the number the
code stringifies. -/
structure WriteCall where
  row : Nat
  status : String
  confidence : ℚ
deriving DecidableEq, Repr

/-- Externally observable effects of the core: a sheet write attempt, a
`setTimeout` wait in milliseconds, or a CSV file export
(`fs.writeFileSync` in `exportResultsToCSV`). -/
inductive Ev where
  | write (w : WriteCall)
  | wait (ms : Nat)
  | exportCSV (content : String)
deriving DecidableEq, Repr

/-- True exactly on CSV-export events. -/
def isExportEv : Ev → Bool
  | .exportCSV _ => true
  | _ => false

/-- The `maxRetries` field of `GoogleSheetsClient`. -/
def maxRetries : Nat := 3

/-- The retry `for`-loop of `updateProfileStatus` (google-sheets.ts lines
175-198), embedded with the remaining number of loop iterations
(`maxRetries - attempt + 1`) as structural fuel.  `fails n` tells whether the
write issued on attempt `n` throws.  Each iteration issues one write; on
failure with `attempt < maxRetries` it waits `attempt * 1000` ms and retries,
on failure with `attempt = maxRetries` it rethrows; fuel 0 is the loop
exiting by its own condition, after which the function returns normally. -/
def retryLoop (fails : Nat → Bool) (row : Nat) (status : String)
    (confidence : ℚ) (maxR : Nat) (attempt : Nat) : Nat → List Ev × Except Unit Unit
  | 0 => ([], Except.ok ())
  | fuel + 1 =>
    if fails attempt then
      if attempt < maxR then
        (Ev.write ⟨row, status, confidence⟩ :: Ev.wait (attempt * 1000)
            :: (retryLoop fails row status confidence maxR (attempt + 1) fuel).1,
          (retryLoop fails row status confidence maxR (attempt + 1) fuel).2)
      else
        ([Ev.write ⟨row, status, confidence⟩], Except.error ())
    else
      ([Ev.write ⟨row, status, confidence⟩], Except.ok ())

/-- `GoogleSheetsClient.updateProfileStatus(rowNumber, status, confidence = 0.9)`
(google-sheets.ts lines 167-209): the retry loop starting at attempt 1 with
the instance's `maxRetries = 3`; returns the emitted effects and the outcome
surfaced to the caller (the outer catch only logs and rethrows). -/
def updateProfileStatus (fails : Nat → Bool) (rowNumber : Nat) (status : String)
    (confidence : ℚ := 9/10) : List Ev × Except Unit Unit :=
  retryLoop fails rowNumber status confidence maxRetries 1 maxRetries

/-- A write oracle that fails on the first two attempts and succeeds after. -/
def failsTwice : Nat → Bool := fun n => decide (n ≤ 2)

/-- A write oracle that fails on every attempt. -/
def alwaysFails : Nat → Bool := fun _ => true

/-- Model of JS `s.split(c)[0]`: the part of the string before the first
occurrence of the character `c` is `'?'` here. -/
def takeBeforeQuery : List Char → List Char
  | [] => []
  | c :: cs => if c = '?' then [] else c :: takeBeforeQuery cs

/-- Model of JS `s.replace(/\/$/, '')`: remove one trailing slash if present. -/
def stripTrailingSlash (s : List Char) : List Char :=
  if s.getLast? = some '/' then s.dropLast else s

/-- Model of JS `hay.endsWith(pat)`. -/
def endsWithSeq (hay pat : List Char) : Bool :=
  startsWithSeq hay.reverse pat.reverse

/-- Model of JS `s.replace(pat, repl)` with a string pattern: replaces only
the first occurrence of `pat` (here always nonempty), or returns `s`
unchanged when `pat` does not occur. -/
def replaceFirst (s pat repl : List Char) : List Char :=
  match s with
  | [] => []
  | c :: cs =>
    if startsWithSeq (c :: cs) pat then repl ++ (c :: cs).drop pat.length
    else c :: replaceFirst cs pat repl

/-- Host marker checked by `normalizeLinkedInUrl`. -/
def linkedinCom : List Char := "linkedin.com".data

/-- Profile-path marker checked by `normalizeLinkedInUrl`. -/
def inMarker : List Char := "/in/".data

/-- Pattern replaced when the profile-path marker is missing. -/
def linkedinComSlash : List Char := "linkedin.com/".data

/-- Replacement inserting the profile-path marker. -/
def linkedinComIn : List Char := "linkedin.com/in/".data

/-- The part of `normalizeLinkedInUrl` after `normalizedUrl` is computed
(google-sheets.ts lines 247-258): keep it when it contains `/in/`, fall back
to the original url on a bare host, otherwise insert `/in/` after the host by
a one-shot string replace. -/
def normalizeMain (normalizedUrl orig : List Char) : List Char :=
  if containsSeq normalizedUrl inMarker then normalizedUrl
  else if endsWithSeq normalizedUrl linkedinCom then orig
  else replaceFirst normalizedUrl linkedinComSlash linkedinComIn

/-- `GoogleSheetsClient.normalizeLinkedInUrl` (google-sheets.ts lines
235-259): empty input maps to the empty string; a string without the host
marker is returned unchanged (warning only); otherwise the query suffix and
one trailing slash are stripped and `normalizeMain` finishes the job. -/
def normalizeLinkedInUrl (url : List Char) : List Char :=
  if url = [] then []
  else if containsSeq url linkedinCom then
    normalizeMain (stripTrailingSlash (takeBeforeQuery url)) url
  else url

/-- The `Profile` record of `types.ts`: url, optional status, sheet row. -/
structure Profile where
  url : List Char
  status : Option ProfileStatus
  row : Nat
deriving DecidableEq, Repr

/-- JS whitespace for `trim` (the characters occurring in sheet cells). -/
def isJsWs (c : Char) : Bool :=
  c = ' ' || c = '\t' || c = '\n' || c = '\r'

/-- Model of JS `s.trim()`. -/
def jsTrim (s : List Char) : List Char :=
  ((s.dropWhile isJsWs).reverse.dropWhile isJsWs).reverse

/-- The body of `GoogleSheetsClient.getProfiles` (google-sheets.ts lines
146-154): `rows.map((row, index) => ...)` followed by
`.filter(profile => profile !== null)`, with the zero-based enumeration index
threaded through the recursion.  A cell that is absent or whitespace-only
(`!row[0] || row[0].trim() === ''`) maps to null and is dropped; a kept cell
yields the normalized url and `row := index + 2`. -/
def getProfilesFrom (index : Nat) : List (List Char) → List Profile
  | [] => []
  | cell :: rest =>
    if jsTrim cell = [] then getProfilesFrom (index + 1) rest
    else { url := normalizeLinkedInUrl cell, status := none, row := index + 2 }
      :: getProfilesFrom (index + 1) rest

/-- `GoogleSheetsClient.getProfiles` applied to the cells fetched from range
`A2:A` (first fetched cell sits in spreadsheet row 2). -/
def getProfiles (rows : List (List Char)) : List Profile :=
  getProfilesFrom 0 rows

/-- The effect of `processProfile` (index.ts lines 485-513) on the profile
object when processing succeeds with the page yielding `sig`: the only
mutation is `profile.status = connectionStatus.status`. -/
def processProfile (sig : PageSignals) (p : Profile) : Profile :=
  { p with status := some (determineConnectionStatus sig).status }

/-- `exportResultsToCSV` (index.ts lines 599-607): the content written to the
export file — the UTF-8 header line followed by one `url,status` line per
result. -/
def exportResultsToCSV (results : List (String × String)) : String :=
  "LinkedIn URL,Connection Status\n"
    ++ String.intercalate "\n" (results.map fun item => item.1 ++ "," ++ item.2)

/-- Per-profile environment: what the browser run yields for the profile
(`none` when `processProfile` throws — navigation failure or the rate-limit
check — before classification) and whether each sheet-write attempt fails. -/
structure ProfileEnv where
  pageSignals : Option PageSignals
  writeFails : Nat → Bool

/-- The per-profile loop of `main` (index.ts lines 345-380).  For each
profile: `processProfile` either throws (caught by the outer catch, nothing
recorded) or assigns the classified status; a truthy status triggers
`updateProfileStatus(profile.row, profile.status)` — confidence omitted, so
the default applies — whose failure the inner catch swallows after logging;
then a 3000 ms inter-profile delay.  Returns the emitted effects and the
`results` array. -/
def mainLoop : List (Profile × ProfileEnv) → List Ev × List Profile
  | [] => ([], [])
  | (p, env) :: rest =>
    match env.pageSignals with
    | none =>
      let r := mainLoop rest
      (Ev.wait 3000 :: r.1, r.2)
    | some sig =>
      let p2 := processProfile sig p
      let w :=
        match p2.status with
        | some st => (updateProfileStatus env.writeFails p2.row (statusStr st)).1
        | none => []
      let r := mainLoop rest
      (w ++ Ev.wait 3000 :: r.1, p2 :: r.2)

end LinkedinChecker

namespace LinkedinChecker

/-- C2: with the write failing on the first two attempts and succeeding on the
third, `updateProfileStatus` succeeds, issuing exactly three writes to the
given row and exactly two waits, of 1000 ms after the first failed attempt and
2000 ms after the second. -/
theorem retrier_fail_twice_succeeds (row : Nat) (st : String) (c : ℚ) :
    updateProfileStatus failsTwice row st c =
      ([Ev.write ⟨row, st, c⟩, Ev.wait 1000,
        Ev.write ⟨row, st, c⟩, Ev.wait 2000,
        Ev.write ⟨row, st, c⟩], Except.ok ()) := rfl

/-- C3: with the write failing on every attempt, `updateProfileStatus` issues
exactly three writes to the given row (never a fourth), waits twice in
between, and terminates by propagating the final attempt's error to the
caller. -/
theorem retrier_exhausts_three_attempts (row : Nat) (st : String) (c : ℚ) :
    updateProfileStatus alwaysFails row st c =
      ([Ev.write ⟨row, st, c⟩, Ev.wait 1000,
        Ev.write ⟨row, st, c⟩, Ev.wait 2000,
        Ev.write ⟨row, st, c⟩], Except.error ()) := rfl

/-- C1: the classifier agrees with the spec's four-rule precedence table on
status and confidence for every signal record, and whenever `isPendingInHtml`
is set the result is PENDING with confidence 0.95 regardless of every other
field. -/
theorem classifier_matches_spec_table (e : PageSignals) :
    ((determineConnectionStatus e).status, (determineConnectionStatus e).confidence)
        = specDecisionTable e
      ∧ (determineConnectionStatus { e with isPendingInHtml := true }).status
          = ProfileStatus.PENDING
      ∧ (determineConnectionStatus { e with isPendingInHtml := true }).confidence
          = 95/100 := by
  refine ⟨?_, ?_, ?_⟩
  · simp only [determineConnectionStatus, specDecisionTable]
    split
    · rfl
    · split
      · rfl
      · split
        · rfl
        · rfl
  · simp [determineConnectionStatus]
  · simp [determineConnectionStatus]

/-- C1 witness: at a concrete signal record with `isPendingInHtml` set and a
conflicting Connect button, the classifier follows rule 1 of the table. -/
theorem classifier_matches_spec_table_witness :
    ((determineConnectionStatus
        { hasConnectButton := true
          hasPendingButton := false
          hasMessageButton := false
          connectionDegree := ""
          isPendingInHtml := true
          isConnectedInHtml := false }).status,
      (determineConnectionStatus
        { hasConnectButton := true
          hasPendingButton := false
          hasMessageButton := false
          connectionDegree := ""
          isPendingInHtml := true
          isConnectedInHtml := false }).confidence)
      = specDecisionTable
        { hasConnectButton := true
          hasPendingButton := false
          hasMessageButton := false
          connectionDegree := ""
          isPendingInHtml := true
          isConnectedInHtml := false } :=
  (classifier_matches_spec_table
    { hasConnectButton := true
      hasPendingButton := false
      hasMessageButton := false
      connectionDegree := ""
      isPendingInHtml := true
      isConnectedInHtml := false }).1

/-- C8: the classifier is a total function: on every signal record it yields a
result whose confidence is one of 0.5, 0.9, 0.95, and on the all-false/empty
record it yields UNKNOWN with confidence 0.5. -/
theorem classifier_total_unknown_default (e : PageSignals) :
    ((determineConnectionStatus e).confidence = 1/2
        ∨ (determineConnectionStatus e).confidence = 9/10
        ∨ (determineConnectionStatus e).confidence = 95/100)
      ∧ (determineConnectionStatus emptySignals).status = ProfileStatus.UNKNOWN
      ∧ (determineConnectionStatus emptySignals).confidence = 1/2 := by
  refine ⟨?_, rfl, rfl⟩
  simp only [determineConnectionStatus]
  split
  · norm_num
  · split
    · norm_num
    · split
      · norm_num
      · norm_num

/-- `startsWithSeq` decides the existence of a completion to the right. -/
theorem startsWithSeq_iff (hay pat : List Char) :
    startsWithSeq hay pat = true ↔ ∃ t, hay = pat ++ t := by
  induction pat generalizing hay with
  | nil => simp [startsWithSeq]
  | cons p ps ih =>
    cases hay with
    | nil => simp [startsWithSeq]
    | cons h hs =>
      simp [startsWithSeq, ih, and_assoc]

/-- `containsSeq` decides substring containment. -/
theorem containsSeq_iff (hay pat : List Char) :
    containsSeq hay pat = true ↔ ∃ pre suf, hay = pre ++ pat ++ suf := by
  induction hay with
  | nil =>
    rw [containsSeq]
    simp only [Bool.or_false, startsWithSeq_iff]
    constructor
    · rintro ⟨t, ht⟩
      exact ⟨[], t, ht⟩
    · rintro ⟨pre, suf, h⟩
      refine ⟨suf, ?_⟩
      have h2 := h.symm
      rw [List.append_assoc, List.append_eq_nil] at h2
      rw [h2.1] at h
      simpa using h
  | cons c cs ih =>
    rw [containsSeq]
    simp only [Bool.or_eq_true, startsWithSeq_iff, ih]
    constructor
    · rintro (⟨t, ht⟩ | ⟨pre, suf, h⟩)
      · exact ⟨[], t, by simpa using ht⟩
      · exact ⟨c :: pre, suf, by simp [h]⟩
    · rintro ⟨pre, suf, h⟩
      cases pre with
      | nil =>
        left
        exact ⟨suf, by simpa using h⟩
      | cons p pre2 =>
        right
        rw [List.cons_append, List.cons_append, List.cons.injEq] at h
        exact ⟨pre2, suf, h.2⟩

/-- A string containing a nonempty substring is nonempty. -/
theorem containsSeq_ne_nil {hay pat : List Char} (h : containsSeq hay pat = true)
    (hp : pat ≠ []) : hay ≠ [] := by
  rw [containsSeq_iff] at h
  obtain ⟨pre, suf, rfl⟩ := h
  simpa [List.append_eq_nil] using fun h1 h2 _ => hp h2

/-- Containment of a concatenation gives containment of each part. -/
theorem containsSeq_append_split {hay u v : List Char}
    (h : containsSeq hay (u ++ v) = true) :
    containsSeq hay u = true ∧ containsSeq hay v = true := by
  rw [containsSeq_iff] at h
  obtain ⟨pre, suf, rfl⟩ := h
  constructor
  · rw [containsSeq_iff]
    exact ⟨pre, v ++ suf, by simp⟩
  · rw [containsSeq_iff]
    exact ⟨pre ++ u, suf, by simp⟩

/-- Characters of the pre-query prefix come from the input and are not `'?'`. -/
theorem mem_takeBeforeQuery {a : Char} {s : List Char}
    (h : a ∈ takeBeforeQuery s) : a ∈ s ∧ a ≠ '?' := by
  induction s with
  | nil => simp [takeBeforeQuery] at h
  | cons c cs ih =>
    rw [takeBeforeQuery] at h
    by_cases hc : c = '?'
    · simp [hc] at h
    · rw [if_neg hc] at h
      rcases List.mem_cons.mp h with rfl | h2
      · exact ⟨List.mem_cons_self _ _, hc⟩
      · exact ⟨List.mem_cons_of_mem _ (ih h2).1, (ih h2).2⟩

/-- On a query-free string the pre-query prefix is the whole string. -/
theorem takeBeforeQuery_eq_self {s : List Char} (h : ∀ a ∈ s, a ≠ '?') :
    takeBeforeQuery s = s := by
  induction s with
  | nil => rfl
  | cons c cs ih =>
    rw [takeBeforeQuery, if_neg (h c (List.mem_cons_self _ _))]
    rw [ih fun a ha => h a (List.mem_cons_of_mem _ ha)]

/-- Stripping is the identity when the string does not end in a slash. -/
theorem stripTrailingSlash_eq_self {s : List Char} (h : s.getLast? ≠ some '/') :
    stripTrailingSlash s = s := if_neg h

/-- Characters survive the trailing-slash strip only if already present. -/
theorem mem_stripTrailingSlash {a : Char} {s : List Char}
    (h : a ∈ stripTrailingSlash s) : a ∈ s := by
  rw [stripTrailingSlash] at h
  by_cases hc : s.getLast? = some '/'
  · rw [if_pos hc] at h
    exact List.dropLast_subset s h
  · rwa [if_neg hc] at h

/-- A one-shot replace of an absent pattern is the identity. -/
theorem replaceFirst_of_not_contains {s pat repl : List Char}
    (h : containsSeq s pat = false) : replaceFirst s pat repl = s := by
  induction s with
  | nil => rfl
  | cons c cs ih =>
    rw [containsSeq, Bool.or_eq_false_iff] at h
    rw [replaceFirst, if_neg (by simp [h.1]), ih h.2]

/-- When the pattern occurs, the one-shot replace makes the replacement occur. -/
theorem containsSeq_replaceFirst {s pat repl : List Char}
    (h : containsSeq s pat = true) (hp : pat ≠ []) :
    containsSeq (replaceFirst s pat repl) repl = true := by
  induction s with
  | nil => exact absurd rfl (containsSeq_ne_nil h hp)
  | cons c cs ih =>
    rw [replaceFirst]
    by_cases hs : startsWithSeq (c :: cs) pat = true
    · rw [if_pos hs, containsSeq_iff]
      exact ⟨[], (c :: cs).drop pat.length, by simp⟩
    · rw [if_neg hs]
      rw [containsSeq, Bool.or_eq_true] at h
      have h2 : containsSeq cs pat = true := by
        rcases h with h | h
        · exact absurd h hs
        · exact h
      have h3 := ih h2
      rw [containsSeq_iff] at h3
      obtain ⟨pre, suf, heq⟩ := h3
      rw [containsSeq_iff]
      exact ⟨c :: pre, suf, by simp [heq]⟩

/-- Characters of a one-shot replace come from the string or the replacement. -/
theorem mem_replaceFirst {a : Char} {s pat repl : List Char}
    (h : a ∈ replaceFirst s pat repl) : a ∈ s ∨ a ∈ repl := by
  induction s with
  | nil => simp [replaceFirst] at h
  | cons c cs ih =>
    rw [replaceFirst] at h
    by_cases hs : startsWithSeq (c :: cs) pat = true
    · rw [if_pos hs] at h
      rcases List.mem_append.mp h with h2 | h2
      · exact Or.inr h2
      · exact Or.inl (List.drop_subset _ _ h2)
    · rw [if_neg hs] at h
      rcases List.mem_cons.mp h with rfl | h2
      · exact Or.inl (List.mem_cons_self _ _)
      · rcases ih h2 with h3 | h3
        · exact Or.inl (List.mem_cons_of_mem _ h3)
        · exact Or.inr h3

/-- The normalizer leaves strings without the host marker unchanged. -/
theorem normalize_not_linkedin (y : List Char)
    (h : containsSeq y linkedinCom = false) : normalizeLinkedInUrl y = y := by
  rw [normalizeLinkedInUrl]
  by_cases hy : y = []
  · simp [hy]
  · rw [if_neg hy, h]
    simp

/-- The normalizer fixes strings that carry the host marker, are query-free,
do not end in a slash and already contain the `/in/` marker. -/
theorem normalize_canonical (y : List Char)
    (hlc : containsSeq y linkedinCom = true) (hq : ∀ a ∈ y, a ≠ '?')
    (hs : y.getLast? ≠ some '/') (hin : containsSeq y inMarker = true) :
    normalizeLinkedInUrl y = y := by
  have hy : y ≠ [] := containsSeq_ne_nil hlc (by decide)
  rw [normalizeLinkedInUrl, if_neg hy, hlc, if_pos rfl,
    takeBeforeQuery_eq_self hq, stripTrailingSlash_eq_self hs,
    normalizeMain, hin, if_pos rfl]

/-- The normalizer fixes marker-carrying, query-free, slash-free strings in
which neither `/in/` nor `linkedin.com/` occurs and which do not end in the
bare host. -/
theorem normalize_stable_noop (y : List Char)
    (hlc : containsSeq y linkedinCom = true) (hq : ∀ a ∈ y, a ≠ '?')
    (hs : y.getLast? ≠ some '/') (hin : containsSeq y inMarker = false)
    (hend : endsWithSeq y linkedinCom = false)
    (hsl : containsSeq y linkedinComSlash = false) :
    normalizeLinkedInUrl y = y := by
  have hy : y ≠ [] := containsSeq_ne_nil hlc (by decide)
  rw [normalizeLinkedInUrl, if_neg hy, hlc, if_pos rfl,
    takeBeforeQuery_eq_self hq, stripTrailingSlash_eq_self hs,
    normalizeMain, hin, hend]
  simp [replaceFirst_of_not_contains hsl]

/-- C4 counterexample: the normalizer is not idempotent; on
`"linkedin.com//"` one application yields `"linkedin.com/in/"` and a second
application yields `"linkedin.com/in/in"`. -/
theorem normalize_not_idempotent_cex :
    normalizeLinkedInUrl (normalizeLinkedInUrl ("linkedin.com//".data))
      ≠ normalizeLinkedInUrl ("linkedin.com//".data) := by
  decide

/-- C4 amended: the normalizer is idempotent on every input whose normalized
form does not end with a slash. -/
theorem normalize_idempotent_of_no_trailing_slash (x : List Char)
    (h : (normalizeLinkedInUrl x).getLast? ≠ some '/') :
    normalizeLinkedInUrl (normalizeLinkedInUrl x) = normalizeLinkedInUrl x := by
  by_cases hx : x = []
  · subst hx
    rfl
  by_cases hlc : containsSeq x linkedinCom = true
  case neg =>
    have hlcf : containsSeq x linkedinCom = false := by simpa using hlc
    rw [normalize_not_linkedin x hlcf]
    exact normalize_not_linkedin x hlcf
  case pos =>
  set n1 := stripTrailingSlash (takeBeforeQuery x) with hn1def
  have hq1 : ∀ a ∈ n1, a ≠ '?' :=
    fun a ha => (mem_takeBeforeQuery (mem_stripTrailingSlash ha)).2
  have hNx : normalizeLinkedInUrl x = normalizeMain n1 x := by
    rw [normalizeLinkedInUrl, if_neg hx, hlc, if_pos rfl]
  by_cases hin : containsSeq n1 inMarker = true
  · have hval : normalizeLinkedInUrl x = n1 := by
      rw [hNx, normalizeMain, hin, if_pos rfl]
    rw [hval] at h ⊢
    by_cases hlc1 : containsSeq n1 linkedinCom = true
    · exact normalize_canonical n1 hlc1 hq1 h hin
    · exact normalize_not_linkedin n1 (by simpa using hlc1)
  · have hinf : containsSeq n1 inMarker = false := by simpa using hin
    by_cases hend : endsWithSeq n1 linkedinCom = true
    · have hval : normalizeLinkedInUrl x = x := by
        rw [hNx, normalizeMain, hinf, hend]
        simp
      rw [hval]
      exact hval
    · have hendf : endsWithSeq n1 linkedinCom = false := by simpa using hend
      have hval : normalizeLinkedInUrl x
          = replaceFirst n1 linkedinComSlash linkedinComIn := by
        rw [hNx, normalizeMain, hinf, hendf]
        simp
      by_cases hsl : containsSeq n1 linkedinComSlash = true
      · have hrep : containsSeq (replaceFirst n1 linkedinComSlash linkedinComIn)
            linkedinComIn = true := containsSeq_replaceFirst hsl (by decide)
        have hsplitEq : linkedinCom ++ inMarker = linkedinComIn := by decide
        have hcc := containsSeq_append_split (u := linkedinCom) (v := inMarker)
          (by rw [hsplitEq]; exact hrep)
        have hallIn : ∀ b ∈ linkedinComIn, b ≠ '?' := by decide
        have hq2 : ∀ a ∈ replaceFirst n1 linkedinComSlash linkedinComIn, a ≠ '?' := by
          intro a ha
          rcases mem_replaceFirst ha with h2 | h2
          · exact hq1 a h2
          · exact hallIn a h2
        rw [hval] at h ⊢
        exact normalize_canonical _ hcc.1 hq2 h hcc.2
      · have hslf : containsSeq n1 linkedinComSlash = false := by simpa using hsl
        have hid : replaceFirst n1 linkedinComSlash linkedinComIn = n1 :=
          replaceFirst_of_not_contains hslf
        rw [hval, hid] at h ⊢
        by_cases hlc1 : containsSeq n1 linkedinCom = true
        · exact normalize_stable_noop n1 hlc1 hq1 h hinf hendf hslf
        · exact normalize_not_linkedin n1 (by simpa using hlc1)

/-- C4 witness: the amended idempotence at the concrete input
`"linkedin.com/in/a"`, whose normalized form ends in `'a'`. -/
theorem normalize_idempotent_witness :
    (normalizeLinkedInUrl ("linkedin.com/in/a".data)).getLast? ≠ some '/'
      ∧ normalizeLinkedInUrl (normalizeLinkedInUrl ("linkedin.com/in/a".data))
          = normalizeLinkedInUrl ("linkedin.com/in/a".data) :=
  ⟨by decide, normalize_idempotent_of_no_trailing_slash _ (by decide)⟩

/-- C9 counterexample: on `"linkedin.com?q"`, which contains the host marker,
the normalizer removes nothing — the bare-host branch returns the input with
its query intact, so the claimed universal query-stripping fails. -/
theorem normalize_strip_cex :
    normalizeLinkedInUrl ("linkedin.com?q".data)
      ≠ stripTrailingSlash (takeBeforeQuery ("linkedin.com?q".data)) := by
  decide

/-- C9 amended: on every input that contains the host marker and whose
query-stripped, slash-stripped form contains the `/in/` profile marker, the
normalizer returns exactly the input with the part from the first `'?'` and
one trailing slash removed. -/
theorem normalize_strips_query_and_slash (x : List Char)
    (hlc : containsSeq x linkedinCom = true)
    (hin : containsSeq (stripTrailingSlash (takeBeforeQuery x)) inMarker = true) :
    normalizeLinkedInUrl x = stripTrailingSlash (takeBeforeQuery x) := by
  have hx : x ≠ [] := containsSeq_ne_nil hlc (by decide)
  rw [normalizeLinkedInUrl, if_neg hx, hlc, if_pos rfl, normalizeMain, hin, if_pos rfl]

/-- C9 witness: the two example URLs of the specification — with a query
suffix and with a trailing slash — both normalize to the canonical profile
URL, by the amended theorem. -/
theorem normalize_strips_query_and_slash_witness :
    containsSeq ("https://www.linkedin.com/in/satyanadella?trk=x".data) linkedinCom = true
      ∧ normalizeLinkedInUrl ("https://www.linkedin.com/in/satyanadella?trk=x".data)
          = ("https://www.linkedin.com/in/satyanadella".data)
      ∧ normalizeLinkedInUrl ("https://www.linkedin.com/in/satyanadella/".data)
          = ("https://www.linkedin.com/in/satyanadella".data) :=
  ⟨by decide,
    (normalize_strips_query_and_slash _ (by decide) (by decide)).trans (by decide),
    (normalize_strips_query_and_slash _ (by decide) (by decide)).trans (by decide)⟩

/-- The main loop distributes over concatenation of its input: effects and
results of a batch are those of its parts, in order. -/
theorem mainLoop_append (xs ys : List (Profile × ProfileEnv)) :
    mainLoop (xs ++ ys)
      = ((mainLoop xs).1 ++ (mainLoop ys).1, (mainLoop xs).2 ++ (mainLoop ys).2) := by
  induction xs with
  | nil => simp [mainLoop]
  | cons pe rest ih =>
    obtain ⟨p, env⟩ := pe
    cases hsig : env.pageSignals with
    | none => simp [mainLoop, hsig, ih]
    | some sig => simp [mainLoop, hsig, ih]

/-- C6: a profile whose processing throws contributes only its inter-profile
delay — every earlier and later profile is processed exactly as it would be
alone (updates included); and when processing succeeds, the profile's result
is recorded and the batch continues regardless of its write outcome. -/
theorem main_failure_isolated (pre : List (Profile × ProfileEnv)) (p : Profile)
    (env : ProfileEnv) (post : List (Profile × ProfileEnv)) :
    (env.pageSignals = none →
        mainLoop (pre ++ (p, env) :: post)
          = ((mainLoop pre).1 ++ Ev.wait 3000 :: (mainLoop post).1,
            (mainLoop pre).2 ++ (mainLoop post).2))
      ∧ ∀ sig, env.pageSignals = some sig →
          (mainLoop (pre ++ (p, env) :: post)).2
            = (mainLoop pre).2 ++ processProfile sig p :: (mainLoop post).2 := by
  constructor
  · intro hnone
    rw [mainLoop_append]
    simp [mainLoop, hnone]
  · intro sig hsig
    rw [mainLoop_append]
    simp [mainLoop, hsig]

/-- C6 witness: a one-profile batch whose processing throws yields only the
3000 ms delay and an empty results array. -/
theorem main_failure_isolated_witness :
    ({ pageSignals := none, writeFails := fun _ => false } : ProfileEnv).pageSignals = none
      ∧ mainLoop ([]
            ++ (({ url := [], status := none, row := 2 } : Profile),
                ({ pageSignals := none, writeFails := fun _ => false } : ProfileEnv)) :: [])
          = ((mainLoop []).1 ++ Ev.wait 3000 :: (mainLoop []).1,
            (mainLoop []).2 ++ (mainLoop []).2) :=
  ⟨rfl,
    (main_failure_isolated [] { url := [], status := none, row := 2 }
      { pageSignals := none, writeFails := fun _ => false } []).1 rfl⟩

/-- Row numbering of the loader, generalized over the starting enumeration
index: every produced profile points `row` at its source cell (`row` minus
the base), cells failing the emptiness test are skipped without renumbering,
and the produced `row` values are strictly increasing. -/
theorem getProfilesFrom_spec (rows : List (List Char)) (index : Nat) :
    (∀ p ∈ getProfilesFrom index rows,
        index + 2 ≤ p.row
          ∧ ∃ cell, rows.get? (p.row - (index + 2)) = some cell
              ∧ jsTrim cell ≠ []
              ∧ p.url = normalizeLinkedInUrl cell
              ∧ p.status = none)
      ∧ List.Chain' (fun a b => a.row < b.row) (getProfilesFrom index rows) := by
  induction rows generalizing index with
  | nil => simp [getProfilesFrom]
  | cons cell rest ih =>
    rw [getProfilesFrom]
    by_cases hc : jsTrim cell = []
    · rw [if_pos hc]
      have ihh := ih (index + 1)
      refine ⟨?_, ihh.2⟩
      intro p hp
      have h2 := ihh.1 p hp
      refine ⟨by omega, ?_⟩
      obtain ⟨c2, hg, h3⟩ := h2.2
      refine ⟨c2, ?_, h3⟩
      have h21 := h2.1
      have hidx : p.row - (index + 2) = (p.row - (index + 1 + 2)) + 1 := by omega
      rw [hidx, List.get?_cons_succ]
      exact hg
    · rw [if_neg hc]
      have ihh := ih (index + 1)
      constructor
      · intro p hp
        rcases List.mem_cons.mp hp with rfl | hp2
        · exact ⟨le_refl _, cell, by simp, hc, rfl, rfl⟩
        · have h2 := ihh.1 p hp2
          refine ⟨by omega, ?_⟩
          obtain ⟨c2, hg, h3⟩ := h2.2
          have h21 := h2.1
          refine ⟨c2, ?_, h3⟩
          have hidx : p.row - (index + 2) = (p.row - (index + 1 + 2)) + 1 := by omega
          rw [hidx, List.get?_cons_succ]
          exact hg
      · rw [List.chain'_cons']
        refine ⟨?_, ihh.2⟩
        intro b hb
        have hbmem := List.mem_of_mem_head? hb
        have hble := (ihh.1 b hbmem).1
        show index + 2 < b.row
        omega

/-- C7: every profile returned by `getProfiles` has `row` equal to its
zero-based position in the fetched `A2:A` range plus 2 (so at least 2),
pointing at a non-blank cell whose normalized content is its url; blank cells
are skipped without renumbering, so rows are strictly increasing; and
`processProfile` changes neither `row` nor `url`, only `status`. -/
theorem getProfiles_row_invariant (rows : List (List Char)) :
    (∀ p ∈ getProfiles rows,
        2 ≤ p.row
          ∧ ∃ cell, rows.get? (p.row - 2) = some cell
              ∧ jsTrim cell ≠ []
              ∧ p.url = normalizeLinkedInUrl cell
              ∧ p.status = none)
      ∧ List.Chain' (fun a b => a.row < b.row) (getProfiles rows)
      ∧ ∀ p sig, (processProfile sig p).row = p.row
          ∧ (processProfile sig p).url = p.url := by
  have h := getProfilesFrom_spec rows 0
  exact ⟨fun p hp => h.1 p hp, h.2, fun p sig => ⟨rfl, rfl⟩⟩

/-- C7 witness: in the cell list `["a", "", "b"]` the blank second cell is
skipped; the first kept profile sits at spreadsheet row 2 over its cell. -/
theorem getProfiles_row_invariant_witness :
    ({ url := ['a'], status := none, row := 2 } : Profile)
        ∈ getProfiles [['a'], [], ['b']]
      ∧ (2 ≤ ({ url := ['a'], status := none, row := 2 } : Profile).row
          ∧ ∃ cell,
              [['a'], [], ['b']].get?
                  (({ url := ['a'], status := none, row := 2 } : Profile).row - 2)
                = some cell
              ∧ jsTrim cell ≠ []
              ∧ ({ url := ['a'], status := none, row := 2 } : Profile).url
                  = normalizeLinkedInUrl cell
              ∧ ({ url := ['a'], status := none, row := 2 } : Profile).status
                  = none) :=
  ⟨by decide,
    (getProfiles_row_invariant [['a'], [], ['b']]).1
      { url := ['a'], status := none, row := 2 } (by decide)⟩

/-- Every effect of the retry loop is a write of the fixed payload at the
given row or a wait. -/
theorem retryLoop_events (fails : Nat → Bool) (row : Nat) (st : String) (c : ℚ)
    (maxR : Nat) : ∀ fuel attempt e,
    e ∈ (retryLoop fails row st c maxR attempt fuel).1 →
      e = Ev.write ⟨row, st, c⟩ ∨ ∃ ms, e = Ev.wait ms := by
  intro fuel
  induction fuel with
  | zero =>
    intro attempt e he
    simp [retryLoop] at he
  | succ n ih =>
    intro attempt e he
    rw [retryLoop] at he
    cases hft : fails attempt with
    | false =>
      rw [hft] at he
      simp at he
      exact Or.inl he
    | true =>
      rw [hft, if_pos rfl] at he
      by_cases hlt : attempt < maxR
      · rw [if_pos hlt] at he
        rcases List.mem_cons.mp he with rfl | he2
        · exact Or.inl rfl
        · rcases List.mem_cons.mp he2 with rfl | he3
          · exact Or.inr ⟨attempt * 1000, rfl⟩
          · exact ih (attempt + 1) e he3
      · rw [if_neg hlt] at he
        simp at he
        exact Or.inl he

/-- C10: every sheet write the main loop issues carries confidence 0.9 — the
default parameter of `updateProfileStatus`, the call site passing none — and
the classifier's own confidence for the profile can differ from it. -/
theorem mainLoop_confidence_default :
    (∀ cfgs w, Ev.write w ∈ (mainLoop cfgs).1 → w.confidence = 9/10)
      ∧ (determineConnectionStatus
          { emptySignals with isPendingInHtml := true }).confidence ≠ 9/10 := by
  constructor
  · intro cfgs
    induction cfgs with
    | nil =>
      intro w hw
      simp [mainLoop] at hw
    | cons pe rest ih =>
      obtain ⟨p, env⟩ := pe
      intro w hw
      cases hsig : env.pageSignals with
      | none =>
        simp [mainLoop, hsig] at hw
        exact ih w hw
      | some sig =>
        simp [mainLoop, hsig, updateProfileStatus] at hw
        rcases hw with hw | hw
        · have hev := retryLoop_events env.writeFails p.row
            (statusStr (determineConnectionStatus sig).status) (9/10)
            maxRetries maxRetries 1 (Ev.write w) hw
          rcases hev with heq | ⟨ms, hms⟩
          · have hww : w = ⟨p.row,
                statusStr (determineConnectionStatus sig).status, 9/10⟩ := by
              injection heq
            rw [hww]
          · exact absurd hms (by simp)
        · exact ih w hw
  · have hconf : (determineConnectionStatus
        { emptySignals with isPendingInHtml := true }).confidence = 95/100 := rfl
    rw [hconf]
    norm_num

/-- C10 witness: in a one-profile run whose page shows a pending signal and
whose write succeeds, the single write issued carries confidence 0.9 even
though the classifier reported 0.95. -/
theorem mainLoop_confidence_default_witness :
    ({ row := 2, status := statusStr ProfileStatus.PENDING, confidence := 9/10 }
        : WriteCall).confidence = 9/10 :=
  mainLoop_confidence_default.1
    [({ url := [], status := none, row := 2 },
      { pageSignals := some { emptySignals with isPendingInHtml := true },
        writeFails := fun _ => false })]
    { row := 2, status := statusStr ProfileStatus.PENDING, confidence := 9/10 }
    (List.mem_cons_self _ _)

/-- C5 (code divergence): in a run whose only profile classifies as PENDING
and whose sheet writes fail on all three attempts, the loop issues the three
failing writes and the delay and nothing else — in particular no CSV-export
effect — the retrier surfaces the failure, and `main` never calls
`exportResultsToCSV`; the export content that function would produce is the
header line plus one `url,status` line per profile. -/
theorem main_no_export_on_write_failure :
    mainLoop [({ url := ['u'], status := none, row := 2 },
        { pageSignals := some { emptySignals with isPendingInHtml := true },
          writeFails := fun _ => true })]
      = ([Ev.write { row := 2, status := "pending", confidence := 9/10 },
          Ev.wait 1000,
          Ev.write { row := 2, status := "pending", confidence := 9/10 },
          Ev.wait 2000,
          Ev.write { row := 2, status := "pending", confidence := 9/10 },
          Ev.wait 3000],
        [{ url := ['u'], status := some ProfileStatus.PENDING, row := 2 }])
      ∧ (updateProfileStatus (fun _ => true) 2
          (statusStr ProfileStatus.PENDING)).2 = Except.error ()
      ∧ ((mainLoop [({ url := ['u'], status := none, row := 2 },
            { pageSignals := some { emptySignals with isPendingInHtml := true },
              writeFails := fun _ => true })]).1.all
          fun e => !(isExportEv e)) = true
      ∧ exportResultsToCSV [("a", "pending"), ("b", "unknown")]
          = "LinkedIn URL,Connection Status\na,pending\nb,unknown" :=
  ⟨rfl, rfl, rfl, rfl⟩

end LinkedinChecker
